import Mathlib

/-!
Verification of the Q&A extraction pipeline of
`src/data/format_for_finetuning.py`.

The script walks the sheets of a workbook, flattens each sheet's
non-empty cells into per-row text units, classifies each unit as a
question or an answer with a textual heuristic, groups them into
question/answer pairs, optionally merges an external JSON FAQ, and
packages the pairs into instruction-format and chat-format records.

Shallow-embedding conventions:
  * a cell value is `Option String`: `none` is an empty cell
    (`cell.value is None`), `some v` is the string `str(cell.value)`;
    Python truthiness of a string value is non-emptiness;
  * a sheet is its list of rows in ascending row order, each row the
    list of its cells in ascending column order;
  * Python `str.strip()` / the regex classes `\s`, `[^\S\n]` are
    modelled over the ASCII whitespace characters
    `' '  '\t'  '\n'  '\r'  '\x0b'  '\x0c'`;
  * Python `str.lower()` is modelled with `Char.toLower` (ASCII).
-/

namespace FormatForFinetuning

/-- ASCII whitespace, the model of Python `str.strip()` whitespace and
of the regex class `\s`. -/
def isPyWs (c : Char) : Bool :=
  c = ' ' || c = '\t' || c = '\n' || c = '\r' || c = '\x0b' || c = '\x0c'

/-- The regex class `[^\S\n]`: whitespace other than newline. -/
def isNNW (c : Char) : Bool :=
  isPyWs c && !(c = '\n')

/-- Right half of Python `str.strip()`. -/
def rstripL (l : List Char) : List Char :=
  (l.reverse.dropWhile isPyWs).reverse

/-- Python `str.strip()` on a character list. -/
def pyStripL (l : List Char) : List Char :=
  rstripL (l.dropWhile isPyWs)

/-- Python `str.strip()` on a string. -/
def pyStripS (s : String) : String :=
  (pyStripL s.toList).asString

/-- `text.replace("\t", " ")`. -/
def tabToSpace (l : List Char) : List Char :=
  l.map (fun c => if c = '\t' then ' ' else c)

/-- `re.sub(r"[^\S\n]+", " ", text)`: each maximal run of non-newline
whitespace becomes one space.  The flag records whether the previous
character belonged to such a run. -/
def collapseWsAux : Bool → List Char → List Char
  | _, [] => []
  | prevWs, c :: rest =>
    if isNNW c then
      if prevWs then collapseWsAux true rest
      else ' ' :: collapseWsAux true rest
    else c :: collapseWsAux false rest

/-- `re.sub(r"\n{3,}", "\n\n", text)`: each maximal run of three or
more newlines becomes two.  The counter is the number of newlines
already emitted for the current run. -/
def collapseNlAux : Nat → List Char → List Char
  | _, [] => []
  | k, c :: rest =>
    if c = '\n' then
      if k < 2 then '\n' :: collapseNlAux (k + 1) rest
      else collapseNlAux k rest
    else c :: collapseNlAux 0 rest

/-- The body of `clean_text` (source lines 52-59) on a character
list: strip, replace tabs, collapse non-newline whitespace runs,
collapse newline runs of three or more, strip again. -/
def cleanTextL (l : List Char) : List Char :=
  pyStripL (collapseNlAux 0 (collapseWsAux false (tabToSpace (pyStripL l))))

/-- `clean_text` (source lines 48-59); a falsy (empty) input maps to
the empty string. -/
def cleanText (s : String) : String :=
  if s = "" then "" else (cleanTextL s.toList).asString

/-- `pre.isPrefixOf l` written out: the model of Python
`str.startswith`. -/
def hasPrefixCh : List Char → List Char → Bool
  | [], _ => true
  | _ :: _, [] => false
  | p :: ps, c :: cs => p = c && hasPrefixCh ps cs

/-- The fixed phrase list `q_starts` of `is_question`
(source lines 71-76). -/
def questionPhrases : List String :=
  ["what", "how", "is ", "is\n", "can ", "can\n", "does", "do ",
   "are ", "which", "who", "where", "when", "why",
   "i would like to", "i want to", "please tell",
   "1.", "1 .", "1-"]

/-- `is_question` (source lines 62-84): strip; empty is never a
question; otherwise a trailing `?`, one of the fixed lowercase prefix
phrases, or a `?` in the first 80 characters makes it a question. -/
def isQuestion (text : String) : Bool :=
  let t := pyStripL text.toList
  if t = [] then false
  else if t.getLast? = some '?' then true
  else if questionPhrases.any (fun qs => hasPrefixCh qs.toList (t.map Char.toLower)) then true
  else if (t.take 80).contains '?' then true
  else false

/-- One extracted record (the dicts appended at source lines 167-172,
192-197 and 231-236). -/
structure QAPair where
  question : String
  answer : String
  product : String
  sheet : String
deriving Repr, DecidableEq

/-- A sheet: rows in ascending row order, each row its cells in
ascending column order; `none` is an empty cell. -/
abbrev Sheet := List (List (Option String))

/-- Python `sep.join parts`. -/
def joinSep (sep : String) : List String → String
  | [] => ""
  | [t] => t
  | t :: rest => t ++ sep ++ joinSep sep rest

/-- Product-name scan over the first row (source lines 116-122): the
first cell whose raw value is truthy and does not strip to `"main"`
(case-insensitively) is inspected; if its stripped text is not a
formula reference the scan stops there with that stripped text,
otherwise it moves on; the fallback is the sheet's own name. -/
def productNameRow : List (Option String) → String → String
  | [], fallback => fallback
  | none :: rest, fallback => productNameRow rest fallback
  | some v :: rest, fallback =>
    if v ≠ "" ∧ ¬ (pyStripL v.toList).map Char.toLower = "main".toList then
      if (pyStripL v.toList).head? = some '=' then productNameRow rest fallback
      else (pyStripL v.toList).asString
    else productNameRow rest fallback

/-- `product_name` of `extract_qa_from_sheet` (source lines 114-122). -/
def productNameOf (ws : Sheet) (sheetName : String) : String :=
  productNameRow (ws.headD []) sheetName

/-- The surviving cell texts of one row (source lines 128-134): empty
cells, formula references, the `"main"` sentinel, and cells that strip
to nothing are discarded; survivors keep their stripped text, in
column order. -/
def rowTexts : List (Option String) → List String
  | [] => []
  | none :: rest => rowTexts rest
  | some v :: rest =>
    if (pyStripL v.toList).head? = some '=' ∨
        (pyStripL v.toList).map Char.toLower = "main".toList ∨
        pyStripL v.toList = [] then
      rowTexts rest
    else (pyStripL v.toList).asString :: rowTexts rest

/-- The combined text of one row (source lines 135-138): `" | "`-join
when several cells survive, the single text verbatim when one does,
nothing when none does. -/
def rowText (row : List (Option String)) : Option String :=
  match rowTexts row with
  | [] => none
  | [t] => some t
  | ts => some (joinSep " | " ts)

/-- The `sorted_rows` texts of a sheet (source lines 124-144): one
combined text per row that has surviving cells, in ascending row
order (the dict keyed by the unique row number, sorted, keeps only
the texts in that order). -/
def rowUnits (ws : Sheet) : List String :=
  ws.filterMap rowText

/-- One finalisation step (source lines 163-172 and 188-197): join
the accumulated parts with newlines, normalize, and emit the pair
when the answer is non-empty. -/
def finalizePair (product sheetName q : String) (parts : List String) : List QAPair :=
  if cleanText (joinSep "\n" parts) ≠ "" then
    [⟨cleanText q, cleanText (joinSep "\n" parts), product, sheetName⟩]
  else []

/-- The segmentation loop of `extract_qa_from_sheet` (source lines
151-197) over the remaining row texts, carrying `current_question`
and `current_answer_parts`; the `[]` case is the final flush. -/
def walk (product sheetName : String) : Option String → List String → List String → List QAPair
  | some q, parts, [] =>
    if q ≠ "" ∧ parts ≠ [] then finalizePair product sheetName q parts else []
  | none, _, [] => []
  | cq, parts, t0 :: rest =>
    if cleanText t0 = "" then walk product sheetName cq parts rest
    else if isQuestion (cleanText t0) then
      (match cq with
       | some q => if q ≠ "" ∧ parts ≠ [] then finalizePair product sheetName q parts else []
       | none => []) ++ walk product sheetName (some (cleanText t0)) [] rest
    else
      match cq with
      | some q =>
        if q ≠ "" then walk product sheetName cq (parts ++ [cleanText t0]) rest
        else walk product sheetName cq parts rest
      | none => walk product sheetName cq parts rest

/-- Segmentation from the initial state (source line 151 onwards). -/
def segment (product sheetName : String) (rows : List String) : List QAPair :=
  walk product sheetName none [] rows

/-- `extract_qa_from_sheet` (source lines 109-199): infer the product
name, flatten the rows, return nothing for an empty sheet, drop a
leading title row equal to the product name, then segment. -/
def extractQaFromSheet (ws : Sheet) (sheetName : String) : List QAPair :=
  if rowUnits ws = [] then []
  else
    segment (productNameOf ws sheetName) sheetName
      (if pyStripS ((rowUnits ws).headD "") = pyStripS (productNameOf ws sheetName)
       then (rowUnits ws).tail else rowUnits ws)

/-- `SKIP_SHEETS` (source line 34). -/
def SKIP_SHEETS : List String :=
  ["Main", "Rate Sheet July 1 2024", "Sheet1"]

/-- The sheet loop of `main` (source lines 210-217): skipped sheets
contribute nothing, the others contribute their extracted pairs in
sheet order. -/
def runExtract : List (String × Sheet) → List QAPair
  | [] => []
  | (name, ws) :: rest =>
    if name ∈ SKIP_SHEETS then runExtract rest
    else extractQaFromSheet ws name ++ runExtract rest

/-- One entry of the external JSON FAQ (`q["question"]`,
`q["answer"]`, source lines 230-233). -/
structure FaqEntry where
  question : String
  answer : String
deriving Repr, DecidableEq

/-- One category of the external JSON FAQ; `category` is optional
because the source reads it with `cat.get("category", "General")`. -/
structure FaqCategory where
  category : Option String
  questions : List FaqEntry
deriving Repr, DecidableEq

/-- The external JSON FAQ (`faq_data.get("categories", [])`). -/
structure FaqData where
  categories : List FaqCategory
deriving Repr, DecidableEq

/-- The pairs appended by the external-FAQ merge (source lines
228-236), in category order then entry order. -/
def faqCatPairs : List FaqCategory → List QAPair
  | [] => []
  | cat :: rest =>
    cat.questions.map (fun q =>
      ⟨cleanText q.question, cleanText q.answer,
       "Mobile App – " ++ cat.category.getD "General",
       "funds_transfer_app_features_faq.json"⟩) ++ faqCatPairs rest

/-- The run-wide `all_qa` collection (source lines 207-238): the
sheet loop's pairs, then — when the optional FAQ file exists — the
merged FAQ pairs. -/
def allQaWithFaq (wb : List (String × Sheet)) (faq : Option FaqData) : List QAPair :=
  runExtract wb ++ (match faq with
    | none => []
    | some d => faqCatPairs d.categories)

/-- `SYSTEM_PROMPT` (source lines 39-43). -/
def SYSTEM_PROMPT : String :=
  "You are a helpful customer support assistant for NUST Bank. " ++
  "Answer the customer's question accurately and concisely using " ++
  "the bank's product knowledge."

/-- One line of the instruction-format output (source lines 249-257). -/
structure InstructRecord where
  instruction : String
  input : String
  output : String
  product : String
deriving Repr, DecidableEq

/-- One chat message of the conversational output. -/
structure ChatMessage where
  role : String
  content : String
deriving Repr, DecidableEq

/-- One line of the conversational output (source lines 262-271). -/
structure ChatRecord where
  messages : List ChatMessage
deriving Repr, DecidableEq

/-- The instruction-format records, one per `all_qa` entry in order
(source lines 249-257). -/
def instructRecords (qa : List QAPair) : List InstructRecord :=
  qa.map (fun q => ⟨q.question, "", q.answer, q.product⟩)

/-- The conversational records, one per `all_qa` entry in order
(source lines 262-271). -/
def chatRecords (qa : List QAPair) : List ChatRecord :=
  qa.map (fun q =>
    ⟨[⟨"system", SYSTEM_PROMPT⟩, ⟨"user", q.question⟩, ⟨"assistant", q.answer⟩]⟩)

/-! Spec-side definitions: restatements of spec sentences, written
independently of the source's control flow, to be compared with the
definitions above. -/

/-- The question heuristic as the spec words it: a disjunction of the
three conditions over the trimmed text. -/
def isQuestionSpec (text : String) : Bool :=
  let t := pyStripL text.toList
  decide (t.getLast? = some '?') ||
    questionPhrases.any (fun qs => hasPrefixCh qs.toList (t.map Char.toLower)) ||
    (t.take 80).contains '?'

/-- The survival rule of the flattener as the spec words it: a cell
is discarded when it is empty, a formula reference, or the sentinel;
otherwise it keeps its trimmed text. -/
def survivingCell : Option String → Option String
  | none => none
  | some v =>
    if pyStripL v.toList = [] ∨ (pyStripL v.toList).head? = some '=' ∨
        (pyStripL v.toList).map Char.toLower = "main".toList
    then none else some (pyStripL v.toList).asString

/-- The flattener contract as the spec words it: keep the trimmed
texts of the cells that survive the three discard rules, then join. -/
def rowUnitSpec (row : List (Option String)) : Option String :=
  match row.filterMap survivingCell with
  | [] => none
  | [t] => some t
  | ts => some (joinSep " | " ts)

/-- Cell selection as the claim words it: the trimmed text is
non-empty, is not the sentinel, and is not a formula reference. -/
def productCellPredSpec : Option String → Bool
  | none => false
  | some v =>
    decide (pyStripL v.toList ≠ [] ∧
      ¬ (pyStripL v.toList).map Char.toLower = "main".toList ∧
      ¬ (pyStripL v.toList).head? = some '=')

/-- Cell selection amended to what the code does: the non-emptiness
test is on the raw cell value, before trimming. -/
def productCellPred : Option String → Bool
  | none => false
  | some v =>
    decide (v ≠ "" ∧
      ¬ (pyStripL v.toList).map Char.toLower = "main".toList ∧
      ¬ (pyStripL v.toList).head? = some '=')

/-- The product-name rule as the claim words it: the first cell of
the first row satisfying `productCellPredSpec` gives its trimmed
text, with the sheet's own name as fallback. -/
def productNameSpec (ws : Sheet) (sheetName : String) : String :=
  match (ws.headD []).find? productCellPredSpec with
  | some (some v) => (pyStripL v.toList).asString
  | _ => sheetName

/-- The product-name rule amended to what the code does. -/
def productNameAmended (ws : Sheet) (sheetName : String) : String :=
  match (ws.headD []).find? productCellPred with
  | some (some v) => (pyStripL v.toList).asString
  | _ => sheetName

/-- Run-based version of the whitespace collapse, as the spec words
it: every maximal run of non-newline whitespace becomes one space. -/
def collapseWsSpec : List Char → List Char
  | [] => []
  | c :: rest =>
    if isNNW c then ' ' :: collapseWsSpec (rest.dropWhile isNNW)
    else c :: collapseWsSpec rest
termination_by l => l.length
decreasing_by
  · simpa [Nat.lt_succ_iff] using (List.dropWhile_sublist (l := rest) isNNW).length_le
  · simp [Nat.lt_succ_iff]

/-- Run-based version of the newline collapse, as the spec words it:
every maximal run of three or more newlines becomes exactly two, and
shorter runs stay. -/
def collapseNlSpec : List Char → List Char
  | [] => []
  | c :: rest =>
    if c = '\n' then
      List.replicate (min (1 + (rest.takeWhile (fun d => d = '\n')).length) 2) '\n'
        ++ collapseNlSpec (rest.dropWhile (fun d => d = '\n'))
    else c :: collapseNlSpec rest
termination_by l => l.length
decreasing_by
  · simpa [Nat.lt_succ_iff] using
      (List.dropWhile_sublist (l := rest) (fun d => d = '\n')).length_le
  · simp [Nat.lt_succ_iff]

/-- Normalization as the spec words it: trim, replace tabs, collapse
non-newline whitespace runs to one space, collapse newline runs of
three or more to two, trim again; falsy input maps to the empty
string. -/
def cleanTextSpec (s : String) : String :=
  if s = "" then ""
  else (pyStripL (collapseNlSpec (collapseWsSpec (tabToSpace (pyStripL s.toList))))).asString

/-! Concrete inputs used by witnesses and counterexamples. -/

/-- An external FAQ whose single entry has an empty question. -/
def faqEmptyQ : FaqData := ⟨[⟨some "Transfers", [⟨"", "Yes."⟩]⟩]⟩

/-- A small sheet: a title row, one question row, one answer row. -/
def wsSmall : Sheet :=
  [[some "Savings Account"], [some "What is X?"], [some "Answer here."]]

/-- The pair the small sheet extracts under sheet name `"Savings"`. -/
def qaSmall : QAPair :=
  ⟨"What is X?", "Answer here.", "Savings Account", "Savings"⟩

/-- A first row whose first cell is truthy but whitespace-only. -/
def wsBlankCell : Sheet := [[some "   ", some "Savings Account"]]

/-- A one-element `all_qa` list used by the record-format witness. -/
def qaOne : QAPair := ⟨"Q?", "A", "P", "S"⟩

/-! Facts about `pyStripL`. -/

lemma dropWhile_dropWhile (p : Char → Bool) (l : List Char) :
    List.dropWhile p (List.dropWhile p l) = List.dropWhile p l := by
  induction l with
  | nil => rfl
  | cons c rest ih =>
    by_cases h : p c
    · simp [List.dropWhile, h, ih]
    · simp [List.dropWhile, h]

lemma head_dropWhile_false (p : Char → Bool) (l : List Char) (c : Char)
    (h : (List.dropWhile p l).head? = some c) : p c = false := by
  have := List.head?_dropWhile_not p l
  rw [h] at this
  exact this

lemma exists_append_dropWhile (p : Char → Bool) (l : List Char) :
    ∃ t, l = t ++ List.dropWhile p l :=
  ⟨List.takeWhile p l, (List.takeWhile_append_dropWhile p l).symm⟩

lemma getLast_dropWhile (p : Char → Bool) (l : List Char)
    (h : List.dropWhile p l ≠ []) :
    (List.dropWhile p l).getLast? = l.getLast? := by
  obtain ⟨t, ht⟩ := exists_append_dropWhile p l
  conv_rhs => rw [ht]
  rw [List.getLast?_append]
  cases hg : (List.dropWhile p l).getLast? with
  | none => exact absurd (List.getLast?_eq_none_iff.mp hg) h
  | some c => rfl

lemma rstripL_prefix (l : List Char) : ∃ t, l = rstripL l ++ t := by
  obtain ⟨t, ht⟩ := exists_append_dropWhile isPyWs l.reverse
  refine ⟨t.reverse, ?_⟩
  have := congrArg List.reverse ht
  rw [List.reverse_reverse, List.reverse_append] at this
  exact this

lemma pyStripL_infix (l : List Char) : ∃ t u, l = t ++ pyStripL l ++ u := by
  obtain ⟨t, ht⟩ := exists_append_dropWhile isPyWs l
  obtain ⟨u, hu⟩ := rstripL_prefix (List.dropWhile isPyWs l)
  refine ⟨t, u, ?_⟩
  show l = t ++ rstripL (List.dropWhile isPyWs l) ++ u
  conv_lhs => rw [ht, hu]
  rw [List.append_assoc]

lemma dropWhile_rstripL (l : List Char) (h : List.dropWhile isPyWs l = l) :
    List.dropWhile isPyWs (rstripL l) = rstripL l := by
  cases hr : rstripL l with
  | nil => rfl
  | cons c t =>
    have hhead : (rstripL l).head? = some c := by rw [hr]; rfl
    rw [rstripL, List.head?_reverse] at hhead
    have hne : List.dropWhile isPyWs l.reverse ≠ [] := by
      intro hnil
      rw [rstripL, hnil] at hr
      exact List.noConfusion hr
    rw [getLast_dropWhile isPyWs l.reverse hne, List.getLast?_reverse] at hhead
    have hc : isPyWs c = false := by
      apply head_dropWhile_false isPyWs l c
      rw [h]
      exact hhead
    simp [List.dropWhile_cons, hc]

lemma rstripL_rstripL (l : List Char) : rstripL (rstripL l) = rstripL l := by
  rw [rstripL, rstripL, List.reverse_reverse, dropWhile_dropWhile]

lemma pyStripL_idem (l : List Char) : pyStripL (pyStripL l) = pyStripL l := by
  rw [pyStripL, pyStripL,
    dropWhile_rstripL (List.dropWhile isPyWs l) (dropWhile_dropWhile isPyWs l),
    rstripL_rstripL]

/-! Facts about `collapseWsAux`. -/

/-- Shape of a string whose non-newline whitespace is collapsed:
every such character is a space and is not followed by another one. -/
def cwOk : List Char → Prop
  | [] => True
  | c :: rest =>
    (isNNW c = true → c = ' ' ∧ ∀ d, rest.head? = some d → isNNW d = false) ∧ cwOk rest

lemma head_collapseWsAux_true (l : List Char) (d : Char)
    (h : (collapseWsAux true l).head? = some d) : isNNW d = false := by
  induction l with
  | nil => exact absurd h (by simp [collapseWsAux])
  | cons c rest ih =>
    by_cases hc : isNNW c
    · rw [collapseWsAux, if_pos hc, if_pos rfl] at h
      exact ih h
    · rw [collapseWsAux, if_neg hc] at h
      rw [List.head?_cons, Option.some.injEq] at h
      rw [← h]
      exact Bool.of_not_eq_true hc

lemma cwOk_collapseWsAux (l : List Char) : ∀ b, cwOk (collapseWsAux b l) := by
  induction l with
  | nil => intro b; simp [collapseWsAux, cwOk]
  | cons c rest ih =>
    intro b
    by_cases hc : isNNW c
    · cases b with
      | true => rw [collapseWsAux, if_pos hc, if_pos rfl]; exact ih true
      | false =>
        rw [collapseWsAux, if_pos hc, if_neg (by simp)]
        refine ⟨fun _ => ⟨rfl, fun d hd => head_collapseWsAux_true rest d hd⟩, ih true⟩
    · rw [collapseWsAux, if_neg hc]
      exact ⟨fun h => absurd h hc, ih false⟩

lemma collapseWsAux_true_eq_false (l : List Char)
    (h : ∀ d, l.head? = some d → isNNW d = false) :
    collapseWsAux true l = collapseWsAux false l := by
  cases l with
  | nil => rfl
  | cons d r =>
    have hd : isNNW d = false := h d rfl
    rw [collapseWsAux, collapseWsAux, if_neg (by simp [hd]), if_neg (by simp [hd])]

lemma collapseWsAux_fix (l : List Char) (h : cwOk l) : collapseWsAux false l = l := by
  induction l with
  | nil => rfl
  | cons c rest ih =>
    obtain ⟨h1, h2⟩ := h
    by_cases hc : isNNW c
    · obtain ⟨hsp, hnext⟩ := h1 hc
      rw [collapseWsAux, if_pos hc, if_neg (by simp),
        collapseWsAux_true_eq_false rest hnext, ih h2, hsp]
    · rw [collapseWsAux, if_neg hc, ih h2]

lemma cwOk_mem (l : List Char) (h : cwOk l) :
    ∀ c ∈ l, isNNW c = true → c = ' ' := by
  induction l with
  | nil => intro c hc; exact absurd hc (List.not_mem_nil c)
  | cons e rest ih =>
    intro c hc hnnw
    rcases List.mem_cons.mp hc with hce | hcr
    · subst hce; exact (h.1 hnnw).1
    · exact ih h.2 c hcr hnnw

lemma cwOk_append_left (t s : List Char) (h : cwOk (t ++ s)) : cwOk s := by
  induction t with
  | nil => exact h
  | cons c t' ih => exact ih h.2

lemma cwOk_append_right (s t : List Char) (h : cwOk (s ++ t)) : cwOk s := by
  induction s with
  | nil => trivial
  | cons c s' ih =>
    refine ⟨fun hc => ⟨(h.1 hc).1, fun d hd => ?_⟩, ih h.2⟩
    apply (h.1 hc).2 d
    cases s' with
    | nil => exact absurd hd (by simp)
    | cons e r => rw [List.head?_cons, Option.some.injEq] at hd; simp [hd]

/-! Facts about `collapseNlAux`. -/

/-- No three consecutive newlines. -/
def noTriple : List Char → Prop
  | [] => True
  | c :: rest => (c = '\n' → rest.take 2 ≠ ['\n', '\n']) ∧ noTriple rest

lemma noTriple_append_left (t s : List Char) (h : noTriple (t ++ s)) : noTriple s := by
  induction t with
  | nil => exact h
  | cons c t' ih => exact ih h.2

lemma noTriple_append_right (s t : List Char) (h : noTriple (s ++ t)) : noTriple s := by
  induction s with
  | nil => trivial
  | cons c s' ih =>
    refine ⟨fun hc ht => ?_, ih h.2⟩
    apply h.1 hc
    cases s' with
    | nil => exact absurd ht (by simp)
    | cons a r =>
      cases r with
      | nil => exact absurd ht (by simp)
      | cons b r' => exact ht

lemma head_collapseNlAux_zero (l : List Char) :
    (collapseNlAux 0 l).head? = l.head? := by
  cases l with
  | nil => rfl
  | cons c rest =>
    by_cases hc : c = '\n'
    · rw [collapseNlAux, if_pos hc, if_pos (by omega), hc]; rfl
    · rw [collapseNlAux, if_neg hc]; rfl

lemma cwOk_collapseNlAux (l : List Char) (h : cwOk l) :
    ∀ k, cwOk (collapseNlAux k l) := by
  induction l with
  | nil => intro k; simp [collapseNlAux, cwOk]
  | cons c rest ih =>
    intro k
    by_cases hc : c = '\n'
    · by_cases hk : k < 2
      · rw [collapseNlAux, if_pos hc, if_pos hk]
        refine ⟨fun hn => absurd hn (by decide), ih h.2 (k + 1)⟩
      · rw [collapseNlAux, if_pos hc, if_neg hk]
        exact ih h.2 k
    · rw [collapseNlAux, if_neg hc]
      refine ⟨fun hn => ⟨(h.1 hn).1, fun d hd => ?_⟩, ih h.2 0⟩
      rw [head_collapseNlAux_zero] at hd
      exact (h.1 hn).2 d hd

lemma noTriple_rep_cons (m : Nat) (hm : m ≤ 2) (c : Char) (hc : ¬ c = '\n')
    (X : List Char) (h : noTriple X) :
    noTriple (List.replicate m '\n' ++ c :: X) := by
  have hX : noTriple (c :: X) := ⟨fun hcn => absurd hcn hc, h⟩
  match m, hm with
  | 0, _ => exact hX
  | 1, _ =>
    refine ⟨fun _ ht => ?_, hX⟩
    cases X with
    | nil => simp at ht
    | cons a r =>
      simp only [List.take_succ_cons, List.take, List.cons.injEq] at ht
      exact hc ht.1
  | 2, _ =>
    refine ⟨fun _ ht => ?_, fun _ ht => ?_, hX⟩
    · simp only [List.take_succ_cons, List.take, List.cons.injEq] at ht
      exact hc ht.2.1
    · cases X with
      | nil => simp at ht
      | cons a r =>
        simp only [List.take_succ_cons, List.take, List.cons.injEq] at ht
        exact hc ht.1

lemma noTriple_collapseNlAux (l : List Char) :
    ∀ k, noTriple (List.replicate (min k 2) '\n' ++ collapseNlAux k l) := by
  induction l with
  | nil =>
    intro k
    rw [collapseNlAux, List.append_nil]
    match h : min k 2, Nat.min_le_right k 2 with
    | 0, _ => trivial
    | 1, _ => exact ⟨by simp, trivial⟩
    | 2, _ => exact ⟨by simp, by simp, trivial⟩
  | cons c rest ih =>
    intro k
    by_cases hc : c = '\n'
    · by_cases hk : k < 2
      · rw [collapseNlAux, if_pos hc, if_pos hk]
        have harr : List.replicate (min k 2) '\n' ++ '\n' :: collapseNlAux (k + 1) rest
            = List.replicate (min (k + 1) 2) '\n' ++ collapseNlAux (k + 1) rest := by
          rw [show min (k + 1) 2 = min k 2 + 1 by omega, List.replicate_succ',
            List.append_assoc]
          rfl
        rw [harr]
        exact ih (k + 1)
      · rw [collapseNlAux, if_pos hc, if_neg hk]
        exact ih k
    · rw [collapseNlAux, if_neg hc]
      exact noTriple_rep_cons (min k 2) (Nat.min_le_right k 2) c hc _
        (noTriple_append_left _ _ (ih 0))

lemma collapseNlAux_fix (l : List Char) :
    ∀ k, noTriple (List.replicate (min k 2) '\n' ++ l) → collapseNlAux k l = l := by
  induction l with
  | nil => intro k _; rfl
  | cons c rest ih =>
    intro k h
    by_cases hc : c = '\n'
    · by_cases hk : k < 2
      · rw [collapseNlAux, if_pos hc, if_pos hk]
        have harr : List.replicate (min k 2) '\n' ++ c :: rest
            = List.replicate (min (k + 1) 2) '\n' ++ rest := by
          rw [show min (k + 1) 2 = min k 2 + 1 by omega, List.replicate_succ',
            List.append_assoc, hc]
          rfl
        rw [harr] at h
        rw [ih (k + 1) h, hc]
      · exfalso
        have hmin : min k 2 = 2 := by omega
        rw [hmin] at h
        subst hc
        exact h.1 rfl (by cases rest <;> simp)
    · rw [collapseNlAux, if_neg hc]
      have hrest : noTriple rest := by
        have := noTriple_append_left (List.replicate (min k 2) '\n') _ h
        exact this.2
      rw [ih 0 hrest]

/-! Idempotence of `clean_text`. -/

lemma tabToSpace_fix (l : List Char) (h : ∀ c ∈ l, ¬ c = '\t') :
    tabToSpace l = l := by
  induction l with
  | nil => rfl
  | cons c rest ih =>
    rw [tabToSpace, List.map_cons, if_neg (h c (List.mem_cons_self c rest))]
    exact congrArg (c :: ·) (ih (fun d hd => h d (List.mem_cons_of_mem c hd)))

lemma cwOk_no_tab (l : List Char) (h : cwOk l) : ∀ c ∈ l, ¬ c = '\t' := by
  intro c hc ht
  have := cwOk_mem l h c hc (by rw [ht]; decide)
  rw [ht] at this
  exact absurd this (by decide)

lemma cwOk_infix (t s u : List Char) (h : cwOk (t ++ s ++ u)) : cwOk s :=
  cwOk_append_right s u (cwOk_append_left t (s ++ u) (by rwa [← List.append_assoc]))

lemma noTriple_infix (t s u : List Char) (h : noTriple (t ++ s ++ u)) : noTriple s :=
  noTriple_append_right s u (noTriple_append_left t (s ++ u) (by rwa [← List.append_assoc]))

lemma cleanTextL_idem (l : List Char) : cleanTextL (cleanTextL l) = cleanTextL l := by
  have hunfold : cleanTextL l
      = pyStripL (collapseNlAux 0 (collapseWsAux false (tabToSpace (pyStripL l)))) := rfl
  set n := collapseNlAux 0 (collapseWsAux false (tabToSpace (pyStripL l))) with hn
  have hcwN : cwOk n := cwOk_collapseNlAux _ (cwOk_collapseWsAux _ false) 0
  have hntN : noTriple n := by
    have := noTriple_collapseNlAux (collapseWsAux false (tabToSpace (pyStripL l))) 0
    simpa [← hn] using this
  obtain ⟨t, u, hdec⟩ := pyStripL_infix n
  have hcwR : cwOk (pyStripL n) := cwOk_infix t _ u (by rw [← hdec]; exact hcwN)
  have hntR : noTriple (pyStripL n) := noTriple_infix t _ u (by rw [← hdec]; exact hntN)
  rw [hunfold]
  show pyStripL (collapseNlAux 0 (collapseWsAux false (tabToSpace (pyStripL (pyStripL n)))))
      = pyStripL n
  rw [pyStripL_idem n, tabToSpace_fix _ (cwOk_no_tab _ hcwR),
    collapseWsAux_fix _ hcwR,
    collapseNlAux_fix _ 0 (by simpa using hntR),
    pyStripL_idem n]

lemma toList_asString (l : List Char) : (l.asString).toList = l := rfl

lemma asString_eq_empty (l : List Char) (h : l.asString = "") : l = [] := by
  have := congrArg String.toList h
  rwa [toList_asString] at this

lemma cleanText_idem (s : String) : cleanText (cleanText s) = cleanText s := by
  by_cases hs : s = ""
  · rw [hs]; rfl
  · have h1 : cleanText s = (cleanTextL s.toList).asString := if_neg hs
    by_cases he : (cleanTextL s.toList).asString = ""
    · rw [h1, he]; rfl
    · rw [h1]
      show (if (cleanTextL s.toList).asString = "" then ""
          else (cleanTextL ((cleanTextL s.toList).asString).toList).asString)
          = (cleanTextL s.toList).asString
      rw [if_neg he, toList_asString, cleanTextL_idem]

/-! Invariants of the segmentation loop. -/

lemma mem_finalizePair (product sheetName q : String) (parts : List String) (qa : QAPair)
    (hq : cleanText q = q) (hmem : qa ∈ finalizePair product sheetName q parts) :
    qa.question = q ∧ qa.answer ≠ "" ∧ qa.product = product ∧ qa.sheet = sheetName ∧
      cleanText qa.answer = qa.answer := by
  rw [finalizePair] at hmem
  by_cases h : cleanText (joinSep "\n" parts) ≠ ""
  · rw [if_pos h] at hmem
    rcases List.mem_singleton.mp hmem with rfl
    exact ⟨hq, h, rfl, rfl, cleanText_idem _⟩
  · rw [if_neg h] at hmem
    exact absurd hmem (List.not_mem_nil qa)

lemma walk_mem (product sheetName : String) :
    ∀ (rows : List String) (cq : Option String) (parts : List String),
      (∀ q, cq = some q → cleanText q = q) →
      ∀ qa ∈ walk product sheetName cq parts rows,
        qa.question ≠ "" ∧ qa.answer ≠ "" ∧ qa.product = product ∧ qa.sheet = sheetName ∧
          cleanText qa.question = qa.question ∧ cleanText qa.answer = qa.answer := by
  intro rows
  induction rows with
  | nil =>
    intro cq parts hinv qa hqa
    cases cq with
    | none => exact absurd hqa (List.not_mem_nil qa)
    | some q =>
      have hunfold : walk product sheetName (some q) parts []
          = if q ≠ "" ∧ parts ≠ [] then finalizePair product sheetName q parts else [] := rfl
      rw [hunfold] at hqa
      by_cases hg : q ≠ "" ∧ parts ≠ []
      · rw [if_pos hg] at hqa
        obtain ⟨hqq, ha, hp, hs, hca⟩ :=
          mem_finalizePair product sheetName q parts qa (hinv q rfl) hqa
        refine ⟨?_, ha, hp, hs, ?_, hca⟩
        · rw [hqq]; exact hg.1
        · rw [hqq, hinv q rfl]
      · rw [if_neg hg] at hqa
        exact absurd hqa (List.not_mem_nil qa)
  | cons t0 rest ih =>
    intro cq parts hinv qa hqa
    have hnewInv : ∀ q, some (cleanText t0) = some q → cleanText q = q := by
      intro q hq'
      injection hq' with h
      rw [← h, cleanText_idem]
    cases cq with
    | some q =>
      have hunfold : walk product sheetName (some q) parts (t0 :: rest)
          = if cleanText t0 = "" then walk product sheetName (some q) parts rest
            else if isQuestion (cleanText t0) then
              (if q ≠ "" ∧ parts ≠ [] then finalizePair product sheetName q parts else [])
                ++ walk product sheetName (some (cleanText t0)) [] rest
            else if q ≠ "" then walk product sheetName (some q) (parts ++ [cleanText t0]) rest
            else walk product sheetName (some q) parts rest := rfl
      rw [hunfold] at hqa
      by_cases h0 : cleanText t0 = ""
      · rw [if_pos h0] at hqa
        exact ih _ _ hinv qa hqa
      · rw [if_neg h0] at hqa
        by_cases hq : isQuestion (cleanText t0)
        · rw [if_pos hq] at hqa
          rcases List.mem_append.mp hqa with hleft | hright
          · by_cases hg : q ≠ "" ∧ parts ≠ []
            · rw [if_pos hg] at hleft
              obtain ⟨hqq, ha, hp, hs, hca⟩ :=
                mem_finalizePair product sheetName q parts qa (hinv q rfl) hleft
              refine ⟨?_, ha, hp, hs, ?_, hca⟩
              · rw [hqq]; exact hg.1
              · rw [hqq, hinv q rfl]
            · rw [if_neg hg] at hleft
              exact absurd hleft (List.not_mem_nil qa)
          · exact ih (some (cleanText t0)) [] hnewInv qa hright
        · rw [if_neg hq] at hqa
          by_cases hne : q ≠ ""
          · rw [if_pos hne] at hqa
            exact ih _ _ hinv qa hqa
          · rw [if_neg hne] at hqa
            exact ih _ _ hinv qa hqa
    | none =>
      have hunfold : walk product sheetName none parts (t0 :: rest)
          = if cleanText t0 = "" then walk product sheetName none parts rest
            else if isQuestion (cleanText t0) then
              [] ++ walk product sheetName (some (cleanText t0)) [] rest
            else walk product sheetName none parts rest := rfl
      rw [hunfold] at hqa
      by_cases h0 : cleanText t0 = ""
      · rw [if_pos h0] at hqa
        exact ih _ _ hinv qa hqa
      · rw [if_neg h0] at hqa
        by_cases hq : isQuestion (cleanText t0)
        · rw [if_pos hq, List.nil_append] at hqa
          exact ih (some (cleanText t0)) [] hnewInv qa hqa
        · rw [if_neg hq] at hqa
          exact ih _ _ hinv qa hqa

lemma segment_mem (product sheetName : String) (rows : List String) (qa : QAPair)
    (h : qa ∈ segment product sheetName rows) :
    qa.question ≠ "" ∧ qa.answer ≠ "" ∧ qa.product = product ∧ qa.sheet = sheetName ∧
      cleanText qa.question = qa.question ∧ cleanText qa.answer = qa.answer :=
  walk_mem product sheetName rows none [] (fun _ hq => Option.noConfusion hq) qa h

lemma extract_mem (ws : Sheet) (sheetName : String) (qa : QAPair)
    (h : qa ∈ extractQaFromSheet ws sheetName) :
    qa.question ≠ "" ∧ qa.answer ≠ "" ∧ qa.product = productNameOf ws sheetName ∧
      qa.sheet = sheetName ∧ cleanText qa.question = qa.question ∧
      cleanText qa.answer = qa.answer := by
  unfold extractQaFromSheet at h
  by_cases hr : rowUnits ws = []
  · rw [if_pos hr] at h
    exact absurd h (List.not_mem_nil qa)
  · rw [if_neg hr] at h
    exact segment_mem _ _ _ qa h

/-! Equivalence of the two collapse formulations. -/

lemma collapseWsAux_true_dropWhile (l : List Char) :
    collapseWsAux true l = collapseWsAux false (l.dropWhile isNNW) := by
  induction l with
  | nil => rfl
  | cons d r ih =>
    by_cases hd : isNNW d
    · rw [collapseWsAux, if_pos hd, if_pos rfl, ih, List.dropWhile_cons, if_pos hd]
    · rw [collapseWsAux, if_neg hd, List.dropWhile_cons, if_neg hd,
        collapseWsAux, if_neg hd]

lemma collapseWs_eq_spec_aux :
    ∀ (n : Nat) (l : List Char), l.length ≤ n → collapseWsAux false l = collapseWsSpec l := by
  intro n
  induction n with
  | zero =>
    intro l hl
    rw [List.eq_nil_of_length_eq_zero (Nat.le_zero.mp hl), collapseWsSpec.eq_1]
    rfl
  | succ n ih =>
    intro l hl
    cases l with
    | nil => rw [collapseWsSpec.eq_1]; rfl
    | cons c rest =>
      by_cases hc : isNNW c
      · rw [collapseWsAux, if_pos hc, if_neg (by simp), collapseWsSpec.eq_2, if_pos hc,
          collapseWsAux_true_dropWhile]
        refine congrArg (' ' :: ·) (ih _ ?_)
        calc (rest.dropWhile isNNW).length ≤ rest.length :=
              (List.dropWhile_sublist isNNW).length_le
          _ ≤ n := by simpa using hl
      · rw [collapseWsAux, if_neg hc, collapseWsSpec.eq_2, if_neg hc]
        exact congrArg (c :: ·) (ih rest (by simpa using hl))

lemma collapseWs_eq_spec (l : List Char) : collapseWsAux false l = collapseWsSpec l :=
  collapseWs_eq_spec_aux l.length l le_rfl

lemma collapseNlAux_runs :
    ∀ (m : Nat) (k : Nat) (t : List Char), t.head? ≠ some '\n' →
      collapseNlAux k (List.replicate m '\n' ++ t)
        = List.replicate (min m (2 - min k 2)) '\n' ++ collapseNlAux 0 t := by
  intro m
  induction m with
  | zero =>
    intro k t ht
    rw [List.replicate_zero, List.nil_append, Nat.zero_min, List.replicate_zero,
      List.nil_append]
    cases t with
    | nil => rfl
    | cons c r =>
      have hc : ¬ c = '\n' := fun h => ht (by rw [h]; rfl)
      rw [collapseNlAux, if_neg hc, collapseNlAux, if_neg hc]
  | succ m ih =>
    intro k t ht
    rw [List.replicate_succ, List.cons_append]
    by_cases hk : k < 2
    · rw [collapseNlAux, if_pos rfl, if_pos hk, ih (k + 1) t ht,
        show min (m + 1) (2 - min k 2) = min m (2 - min (k + 1) 2) + 1 by omega,
        List.replicate_succ, List.cons_append]
    · rw [collapseNlAux, if_pos rfl, if_neg hk, ih k t ht,
        show min m (2 - min k 2) = 0 by omega,
        show min (m + 1) (2 - min k 2) = 0 by omega]

lemma collapseNl_eq_spec_aux :
    ∀ (n : Nat) (l : List Char), l.length ≤ n → collapseNlAux 0 l = collapseNlSpec l := by
  intro n
  induction n with
  | zero =>
    intro l hl
    rw [List.eq_nil_of_length_eq_zero (Nat.le_zero.mp hl), collapseNlSpec.eq_1]
    rfl
  | succ n ih =>
    intro l hl
    cases l with
    | nil => rw [collapseNlSpec.eq_1]; rfl
    | cons c rest =>
      by_cases hc : c = '\n'
      · subst hc
        have htake : rest.takeWhile (fun d => decide (d = '\n'))
            = List.replicate (rest.takeWhile (fun d => decide (d = '\n'))).length '\n' := by
          rw [List.eq_replicate_iff]
          refine ⟨rfl, fun b hb => ?_⟩
          have hb' := List.mem_takeWhile_imp hb
          exact of_decide_eq_true hb'
        have hdecomp : ('\n' : Char) :: rest
            = List.replicate ((rest.takeWhile (fun d => decide (d = '\n'))).length + 1) '\n'
              ++ rest.dropWhile (fun d => decide (d = '\n')) := by
          rw [List.replicate_succ, List.cons_append, ← htake,
            List.takeWhile_append_dropWhile]
        have hhead : (rest.dropWhile (fun d => decide (d = '\n'))).head? ≠ some '\n' := by
          intro h
          have := head_dropWhile_false _ rest '\n' h
          simp at this
        conv_lhs => rw [hdecomp]
        rw [collapseNlAux_runs _ 0 _ hhead, collapseNlSpec.eq_2, if_pos rfl]
        have hlen : (rest.dropWhile (fun d => decide (d = '\n'))).length ≤ n :=
          le_trans (List.dropWhile_sublist _).length_le (by simpa using hl)
        rw [ih _ hlen, show min 0 2 = 0 by omega, Nat.sub_zero, Nat.add_comm]
      · rw [collapseNlAux, if_neg hc, collapseNlSpec.eq_2, if_neg hc]
        exact congrArg (c :: ·) (ih rest (by simpa using hl))

lemma collapseNl_eq_spec (l : List Char) : collapseNlAux 0 l = collapseNlSpec l :=
  collapseNl_eq_spec_aux l.length l le_rfl

/-! Remaining helper lemmas. -/

lemma ifchain_eq_or (t : List Char) :
    (if t = [] then false
     else if t.getLast? = some '?' then true
     else if questionPhrases.any (fun qs => hasPrefixCh qs.toList (t.map Char.toLower)) then true
     else if (t.take 80).contains '?' then true
     else false)
    = (decide (t.getLast? = some '?') ||
        questionPhrases.any (fun qs => hasPrefixCh qs.toList (t.map Char.toLower)) ||
        (t.take 80).contains '?') := by
  by_cases h0 : t = []
  · subst h0; decide
  · rw [if_neg h0]
    by_cases h1 : t.getLast? = some '?'
    · rw [if_pos h1, decide_eq_true h1, Bool.true_or, Bool.true_or]
    · rw [if_neg h1, decide_eq_false h1, Bool.false_or]
      by_cases h2 : questionPhrases.any (fun qs => hasPrefixCh qs.toList (t.map Char.toLower)) = true
      · rw [if_pos h2, h2, Bool.true_or]
      · rw [if_neg h2, Bool.of_not_eq_true h2, Bool.false_or]
        by_cases h3 : (t.take 80).contains '?' = true
        · rw [if_pos h3, h3]
        · rw [if_neg h3, Bool.of_not_eq_true h3]

lemma append_ne_empty_left (s t : String) (h : s ≠ "") : s ++ t ≠ "" := by
  intro he
  apply h
  have hd := congrArg String.data he
  rw [String.data_append] at hd
  rcases List.append_eq_nil.mp hd with ⟨hs, -⟩
  cases s with
  | mk d => exact congrArg String.mk hs

lemma faqCatPairs_mem (cats : List FaqCategory) (qa : QAPair)
    (h : qa ∈ faqCatPairs cats) : qa.product ≠ "" ∧ qa.sheet ≠ "" := by
  induction cats with
  | nil => exact absurd h (List.not_mem_nil qa)
  | cons cat rest ih =>
    rw [faqCatPairs] at h
    rcases List.mem_append.mp h with hm | hm
    · obtain ⟨e, -, he⟩ := List.mem_map.mp hm
      subst he
      exact ⟨append_ne_empty_left "Mobile App – " (cat.category.getD "General") (by decide),
        show ("funds_transfer_app_features_faq.json" : String) ≠ "" by decide⟩
    · exact ih hm

lemma rowTexts_eq_filterMap (row : List (Option String)) :
    rowTexts row = row.filterMap survivingCell := by
  induction row with
  | nil => rfl
  | cons c rest ih =>
    cases c with
    | none => rw [rowTexts, List.filterMap_cons_none rfl]; exact ih
    | some v =>
      by_cases hcond : (pyStripL v.toList).head? = some '=' ∨
          (pyStripL v.toList).map Char.toLower = "main".toList ∨ pyStripL v.toList = []
      · have hcond' : pyStripL v.toList = [] ∨ (pyStripL v.toList).head? = some '=' ∨
            (pyStripL v.toList).map Char.toLower = "main".toList := by tauto
        rw [rowTexts, if_pos hcond,
          List.filterMap_cons_none (show survivingCell (some v) = none by
            rw [survivingCell, if_pos hcond'])]
        exact ih
      · have hcond' : ¬ (pyStripL v.toList = [] ∨ (pyStripL v.toList).head? = some '=' ∨
            (pyStripL v.toList).map Char.toLower = "main".toList) := by tauto
        rw [rowTexts, if_neg hcond,
          List.filterMap_cons_some (show survivingCell (some v)
              = some (pyStripL v.toList).asString by
            rw [survivingCell, if_neg hcond'])]
        exact congrArg _ ih

lemma productNameRow_eq_find (row : List (Option String)) (fallback : String) :
    productNameRow row fallback
      = (match row.find? productCellPred with
          | some (some v) => (pyStripL v.toList).asString
          | _ => fallback) := by
  induction row with
  | nil => rfl
  | cons c rest ih =>
    cases c with
    | none =>
      rw [productNameRow,
        List.find?_cons_of_neg _ (show ¬ productCellPred none = true by decide)]
      exact ih
    | some v =>
      by_cases h1 : v ≠ "" ∧ ¬ (pyStripL v.toList).map Char.toLower = "main".toList
      · by_cases h2 : (pyStripL v.toList).head? = some '='
        · rw [productNameRow, if_pos h1, if_pos h2, List.find?_cons_of_neg _
            (show ¬ productCellPred (some v) = true from
              fun hp => (of_decide_eq_true hp).2.2 h2)]
          exact ih
        · rw [productNameRow, if_pos h1, if_neg h2, List.find?_cons_of_pos _
            (show productCellPred (some v) = true from decide_eq_true ⟨h1.1, h1.2, h2⟩)]
      · rw [productNameRow, if_neg h1, List.find?_cons_of_neg _
          (show ¬ productCellPred (some v) = true from fun hp =>
            h1 ⟨(of_decide_eq_true hp).1, (of_decide_eq_true hp).2.1⟩)]
        exact ih

lemma walk_all_questions (product sheetName : String) :
    ∀ (rows : List String) (cq : Option String),
      (∀ t ∈ rows, isQuestion (cleanText t) = true ∨ cleanText t = "") →
      walk product sheetName cq [] rows = [] := by
  intro rows
  induction rows with
  | nil =>
    intro cq _
    cases cq with
    | none => rfl
    | some q =>
      have hunfold : walk product sheetName (some q) [] []
          = if q ≠ "" ∧ ([] : List String) ≠ [] then finalizePair product sheetName q []
            else [] := rfl
      rw [hunfold, if_neg (by simp)]
  | cons t rest ih =>
    intro cq h
    have ht := h t (List.mem_cons_self t rest)
    have hrest : ∀ u ∈ rest, isQuestion (cleanText u) = true ∨ cleanText u = "" :=
      fun u hu => h u (List.mem_cons_of_mem t hu)
    cases cq with
    | none =>
      have hunfold : walk product sheetName none [] (t :: rest)
          = if cleanText t = "" then walk product sheetName none [] rest
            else if isQuestion (cleanText t) then
              [] ++ walk product sheetName (some (cleanText t)) [] rest
            else walk product sheetName none [] rest := rfl
      rw [hunfold]
      by_cases h0 : cleanText t = ""
      · rw [if_pos h0]; exact ih none hrest
      · rcases ht with hq | hq
        · rw [if_neg h0, if_pos hq, List.nil_append]
          exact ih (some (cleanText t)) hrest
        · exact absurd hq h0
    | some q =>
      have hunfold : walk product sheetName (some q) [] (t :: rest)
          = if cleanText t = "" then walk product sheetName (some q) [] rest
            else if isQuestion (cleanText t) then
              (if q ≠ "" ∧ ([] : List String) ≠ [] then finalizePair product sheetName q []
               else [])
                ++ walk product sheetName (some (cleanText t)) [] rest
            else if q ≠ "" then walk product sheetName (some q) ([] ++ [cleanText t]) rest
            else walk product sheetName (some q) [] rest := rfl
      rw [hunfold]
      by_cases h0 : cleanText t = ""
      · rw [if_pos h0]; exact ih (some q) hrest
      · rcases ht with hq | hq
        · rw [if_neg h0, if_pos hq, if_neg (by simp), List.nil_append]
          exact ih (some (cleanText t)) hrest
        · exact absurd hq h0

lemma segment_drop_non_questions (product sheetName : String)
    (pre rest : List String) (h : ∀ t ∈ pre, isQuestion (cleanText t) = false) :
    segment product sheetName (pre ++ rest) = segment product sheetName rest := by
  induction pre with
  | nil => rfl
  | cons t pre' ih =>
    have ht := h t (List.mem_cons_self t pre')
    have hpre' : ∀ u ∈ pre', isQuestion (cleanText u) = false :=
      fun u hu => h u (List.mem_cons_of_mem t hu)
    have hunfold : walk product sheetName none [] (t :: (pre' ++ rest))
        = if cleanText t = "" then walk product sheetName none [] (pre' ++ rest)
          else if isQuestion (cleanText t) then
            [] ++ walk product sheetName (some (cleanText t)) [] (pre' ++ rest)
          else walk product sheetName none [] (pre' ++ rest) := rfl
    show walk product sheetName none [] (t :: (pre' ++ rest))
        = segment product sheetName rest
    rw [hunfold]
    by_cases h0 : cleanText t = ""
    · rw [if_pos h0]; exact ih hpre'
    · rw [if_neg h0, if_neg (by rw [ht]; exact Bool.false_ne_true)]
      exact ih hpre'

/-! The claims. -/

/-- C1 (amended): every QAPair produced by `extract_qa_from_sheet`
has a non-empty question and a non-empty answer after normalization,
its sheet field equal to the sheet's name and its product field equal
to the inferred product name — so product and sheet are non-empty
exactly when those names are; every QAPair appended by the
external-FAQ merge has non-empty product and sheet fields, while its
question and answer are the normalizations of the source FAQ entry's
fields and may be empty. -/
theorem c1_qapair_invariants :
    (∀ (ws : Sheet) (sheetName : String), ∀ qa ∈ extractQaFromSheet ws sheetName,
        qa.question ≠ "" ∧ qa.answer ≠ "" ∧
        qa.product = productNameOf ws sheetName ∧ qa.sheet = sheetName) ∧
    (∀ cats : List FaqCategory, ∀ qa ∈ faqCatPairs cats,
        qa.product ≠ "" ∧ qa.sheet ≠ "") :=
  ⟨fun ws sheetName qa h =>
      ⟨(extract_mem ws sheetName qa h).1, (extract_mem ws sheetName qa h).2.1,
       (extract_mem ws sheetName qa h).2.2.1, (extract_mem ws sheetName qa h).2.2.2.1⟩,
   fun cats qa h => faqCatPairs_mem cats qa h⟩

/-- C1 witness: the invariants hold for the concrete pair the small
sheet extracts. -/
theorem c1_qapair_invariants_witness :
    qaSmall.question ≠ "" ∧ qaSmall.answer ≠ "" ∧
      qaSmall.product = productNameOf wsSmall "Savings" ∧ qaSmall.sheet = "Savings" :=
  c1_qapair_invariants.1 wsSmall "Savings" qaSmall (by decide)

/-- C1 counterexample: with an external FAQ whose entry has an empty
question, the run-wide collection contains a QAPair with an empty
question, so the claimed invariant fails for the FAQ-merge path. -/
theorem c1_nonempty_counterexample :
    ¬ (∀ qa ∈ allQaWithFaq [] (some faqEmptyQ),
        qa.question ≠ "" ∧ qa.answer ≠ "" ∧ qa.product ≠ "" ∧ qa.sheet ≠ "") := by
  decide

/-- C2: `is_question` classifies exactly as the disjunction of the
three spec conditions over the trimmed text, and text that is empty
after trimming is never classified as a question. -/
theorem c2_question_heuristic :
    (∀ text : String, isQuestion text = isQuestionSpec text) ∧
    (∀ text : String, pyStripS text = "" → isQuestion text = false) := by
  constructor
  · intro text
    exact ifchain_eq_or (pyStripL text.toList)
  · intro text h
    have hnil : pyStripL text.toList = [] := asString_eq_empty _ h
    simp only [isQuestion]
    rw [if_pos hnil]

/-- C2 witness: whitespace-only text is not a question. -/
theorem c2_question_heuristic_witness : isQuestion "   " = false :=
  c2_question_heuristic.2 "   " (by decide)

/-- C3 (amended): the inferred product name is the trimmed text of
the first first-row cell whose raw value is non-empty (truthy) and
whose trimmed text is neither the sentinel nor a formula reference —
the non-emptiness test is on the raw value, so a whitespace-only cell
is selected and yields an empty product name — with the sheet's own
name as fallback; and when the sheet flattens to a non-empty row-unit
list, extraction segments those units with the first one dropped
exactly when its trimmed text equals the trimmed product name. -/
theorem c3_product_name :
    (∀ (ws : Sheet) (sheetName : String),
        productNameOf ws sheetName = productNameAmended ws sheetName) ∧
    (∀ (ws : Sheet) (sheetName : String), rowUnits ws ≠ [] →
        extractQaFromSheet ws sheetName
          = segment (productNameOf ws sheetName) sheetName
              (if pyStripS ((rowUnits ws).headD "") = pyStripS (productNameOf ws sheetName)
               then (rowUnits ws).tail else rowUnits ws)) := by
  constructor
  · intro ws sheetName
    exact productNameRow_eq_find (ws.headD []) sheetName
  · intro ws sheetName h
    unfold extractQaFromSheet
    rw [if_neg h]

/-- C3 witness: the segmentation equation at the small sheet. -/
theorem c3_product_name_witness :
    extractQaFromSheet wsSmall "Savings"
      = segment (productNameOf wsSmall "Savings") "Savings"
          (if pyStripS ((rowUnits wsSmall).headD "")
              = pyStripS (productNameOf wsSmall "Savings")
           then (rowUnits wsSmall).tail else rowUnits wsSmall) :=
  c3_product_name.2 wsSmall "Savings" (by decide)

/-- C3 counterexample: a truthy whitespace-only first cell is taken
by the code, so the product name is empty, while the claimed rule
(first cell with non-empty text) would give the second cell's text. -/
theorem c3_product_name_counterexample :
    productNameOf wsBlankCell "Sheet" = "" ∧
    productNameSpec wsBlankCell "Sheet" = "Savings Account" := by
  decide

/-- C4: leading rows classified as answers before any question are
dropped; rows that are all questions (or normalize to empty) produce
no pair at all, so a question never followed by an answer is dropped;
in particular the single-row input yields no pair and the
three-row scenario yields exactly one. -/
theorem c4_dangling_and_orphans :
    (∀ (product sheetName : String) (pre rest : List String),
        (∀ t ∈ pre, isQuestion (cleanText t) = false) →
        segment product sheetName (pre ++ rest) = segment product sheetName rest) ∧
    (∀ (product sheetName : String) (rows : List String),
        (∀ t ∈ rows, isQuestion (cleanText t) = true ∨ cleanText t = "") →
        segment product sheetName rows = []) ∧
    (∀ product sheetName : String, segment product sheetName ["What is X?"] = []) ∧
    (∀ product sheetName : String,
        segment product sheetName
          ["Note: rates subject to change.", "What is the rate?", "5% APR."]
        = [⟨"What is the rate?", "5% APR.", product, sheetName⟩]) :=
  ⟨fun p s pre rest h => segment_drop_non_questions p s pre rest h,
   fun p s rows h => walk_all_questions p s rows none h,
   fun _ _ => rfl,
   fun _ _ => rfl⟩

/-- C4 witness: the two general parts at concrete inputs. -/
theorem c4_dangling_and_orphans_witness :
    segment "P" "S" (["Intro text."] ++ ["What is X?", "Yes."])
      = segment "P" "S" ["What is X?", "Yes."] ∧
    segment "P" "S" ["What is X?", "How about Y?"] = [] :=
  ⟨c4_dangling_and_orphans.1 "P" "S" ["Intro text."] ["What is X?", "Yes."] (by decide),
   c4_dangling_and_orphans.2.1 "P" "S" ["What is X?", "How about Y?"] (by decide)⟩

/-- C5: the four-row savings scenario yields exactly the two claimed
pairs, in order. -/
theorem c5_savings_scenario :
    segment "Savings Account" "Savings"
      ["What is the minimum balance?", "PKR 5,000 for savings accounts.",
       "How do I open an account?", "Visit any branch with your CNIC."]
    = [⟨"What is the minimum balance?", "PKR 5,000 for savings accounts.",
        "Savings Account", "Savings"⟩,
       ⟨"How do I open an account?", "Visit any branch with your CNIC.",
        "Savings Account", "Savings"⟩] := by
  decide

/-- C6: per row, the flattener emits the surviving trimmed cell
texts joined with `" | "` when two or more survive, the single text
verbatim when one does, and nothing when none does; per sheet, the
row units are exactly the surviving rows' units in row order. -/
theorem c6_row_flattening :
    (∀ row : List (Option String), rowText row = rowUnitSpec row) ∧
    (∀ ws : Sheet, rowUnits ws = ws.filterMap rowUnitSpec) := by
  have hrow : ∀ row : List (Option String), rowText row = rowUnitSpec row := by
    intro row
    unfold rowText rowUnitSpec
    rw [rowTexts_eq_filterMap]
  exact ⟨hrow, fun ws => List.filterMap_congr (fun row _ => hrow row)⟩

/-- C7: `clean_text` equals the spec's normalization pipeline — trim,
tabs to spaces, collapse each run of non-newline whitespace to one
space, collapse each run of three or more newlines to two, trim
again, with falsy input mapped to the empty string. -/
theorem c7_clean_text_normalization (s : String) : cleanText s = cleanTextSpec s := by
  unfold cleanText cleanTextSpec cleanTextL
  by_cases hs : s = ""
  · rw [if_pos hs, if_pos hs]
  · rw [if_neg hs, if_neg hs, collapseWs_eq_spec, collapseNl_eq_spec]

/-- C8: a sheet whose name is in the skip set contributes nothing to
the run-wide collection: inserting it anywhere in the workbook leaves
the extracted collection unchanged. -/
theorem c8_skip_sheets (pre post : List (String × Sheet)) (name : String) (ws : Sheet)
    (h : name ∈ SKIP_SHEETS) :
    runExtract (pre ++ (name, ws) :: post) = runExtract (pre ++ post) := by
  induction pre with
  | nil =>
    show runExtract ((name, ws) :: post) = runExtract post
    have hunfold : runExtract ((name, ws) :: post)
        = if name ∈ SKIP_SHEETS then runExtract post
          else extractQaFromSheet ws name ++ runExtract post := rfl
    rw [hunfold, if_pos h]
  | cons p pre' ih =>
    obtain ⟨pname, pws⟩ := p
    have h1 : runExtract ((pname, pws) :: (pre' ++ (name, ws) :: post))
        = if pname ∈ SKIP_SHEETS then runExtract (pre' ++ (name, ws) :: post)
          else extractQaFromSheet pws pname ++ runExtract (pre' ++ (name, ws) :: post) := rfl
    have h2 : runExtract ((pname, pws) :: (pre' ++ post))
        = if pname ∈ SKIP_SHEETS then runExtract (pre' ++ post)
          else extractQaFromSheet pws pname ++ runExtract (pre' ++ post) := rfl
    show runExtract ((pname, pws) :: (pre' ++ (name, ws) :: post))
        = runExtract ((pname, pws) :: (pre' ++ post))
    rw [h1, h2, ih]

/-- C8 witness: the `"Main"` sheet contributes nothing. -/
theorem c8_skip_sheets_witness :
    runExtract ([] ++ ("Main", ([] : Sheet)) :: []) = runExtract ([] ++ []) :=
  c8_skip_sheets [] [] "Main" [] (by decide)

/-- C9: the instruction-format and conversational-format collections
are in 1:1 correspondence with the dumped `all_qa` collection: counts
match, the i-th instruction record is (question, "", answer, product)
of the i-th pair, and the i-th chat record is the three-turn messages
array (system prompt, question, answer). -/
theorem c9_record_formats (qa : List QAPair) :
    (instructRecords qa).length = qa.length ∧
    (chatRecords qa).length = qa.length ∧
    ∀ (i : Nat) (q : QAPair), qa[i]? = some q →
      (instructRecords qa)[i]? = some ⟨q.question, "", q.answer, q.product⟩ ∧
      (chatRecords qa)[i]? = some ⟨[⟨"system", SYSTEM_PROMPT⟩, ⟨"user", q.question⟩,
        ⟨"assistant", q.answer⟩]⟩ := by
  refine ⟨List.length_map qa _, List.length_map qa _, fun i q hq => ⟨?_, ?_⟩⟩
  · unfold instructRecords
    rw [List.getElem?_map, hq]
    rfl
  · unfold chatRecords
    rw [List.getElem?_map, hq]
    rfl

/-- C9 witness: the correspondence at a one-element collection. -/
theorem c9_record_formats_witness :
    (instructRecords [qaOne])[0]? = some ⟨qaOne.question, "", qaOne.answer, qaOne.product⟩ ∧
    (chatRecords [qaOne])[0]? = some ⟨[⟨"system", SYSTEM_PROMPT⟩, ⟨"user", qaOne.question⟩,
      ⟨"assistant", qaOne.answer⟩]⟩ :=
  (c9_record_formats [qaOne]).2.2 0 qaOne rfl

/-- C10: `clean_text` is idempotent, and consequently the question
and answer of every extracted pair are unchanged by a further
normalization. -/
theorem c10_clean_text_idem :
    (∀ s : String, cleanText (cleanText s) = cleanText s) ∧
    (∀ (ws : Sheet) (sheetName : String), ∀ qa ∈ extractQaFromSheet ws sheetName,
        cleanText qa.question = qa.question ∧ cleanText qa.answer = qa.answer) :=
  ⟨cleanText_idem, fun ws sheetName qa h =>
    ⟨(extract_mem ws sheetName qa h).2.2.2.2.1, (extract_mem ws sheetName qa h).2.2.2.2.2⟩⟩

/-- C10 witness: the extracted pair of the small sheet is fixed by
normalization. -/
theorem c10_clean_text_idem_witness :
    cleanText qaSmall.question = qaSmall.question ∧
    cleanText qaSmall.answer = qaSmall.answer :=
  c10_clean_text_idem.2 wsSmall "Savings" qaSmall (by decide)

end FormatForFinetuning
